import Mathlib

/-!
Shallow embedding of `tiledb/sm/misc/thread_pool.cc` (class `ThreadPool`).

The mutable C++ state is made explicit:
* `HandleState` models the shared state behind a `Task<Status>` future
  (`valid()`, `done()`, and the `Status` stored on completion).
* `PTask` models a `PackagedTask<Status()>` sitting on the task stack: the
  stored closure is pure here, so it is represented by the `Status` it will
  produce, together with the id of the future it fulfills.
* `ThreadPool` models one pool object: `concurrency_level_`,
  `should_terminate_`, `threads_` (thread ids) and `task_stack_`
  (head of the list = top of the `std::stack`).
* `World` models the process: all pool objects, the static
  `tp_index_` registry (thread id -> pool id), and the future states.
  `next_handle` / `next_tid` are allocation counters.

Thread creation can throw in C++; `init` therefore takes a spawn oracle
`fail : Nat → Option String` giving, for each loop index, the exception
message thrown at that index (or `none` when `emplace_back` succeeds).

A wait that reaches `task.wait()` with the future not yet completed blocks
forever in this sequential fragment; such a wait is modelled as `none`,
while `some s` models a wait that returns status `s`.
-/

namespace TPool

/-- Translation of `Status`: sum of `Ok` and `Error(message)`; `Status::ThreadPoolError(m)`
is the error status carrying message `m`. -/
inductive Status where
  | ok : Status
  | error : String → Status
deriving DecidableEq, Repr

/-- Translation of `Status::ok()`. -/
def Status.isOk : Status → Bool
  | Status.ok => true
  | Status.error _ => false

/-- Shared state of a `Task<Status>` future. -/
structure HandleState where
  valid : Bool
  done : Bool
  result : Status
deriving DecidableEq, Repr

/-- A `PackagedTask<Status()>` on the task stack: `valid` mirrors
`PackagedTask::valid()`, `h` is the future it fulfills, `result` the status
its stored closure produces when invoked. -/
structure PTask where
  valid : Bool
  h : Nat
  result : Status
deriving DecidableEq, Repr

/-- One `ThreadPool` object's fields. -/
structure ThreadPool where
  concurrency_level : Nat
  should_terminate : Bool
  threads : List Nat
  task_stack : List PTask
deriving DecidableEq, Repr

/-- The process state: pool objects, the static `tp_index_` registry, and
all future states. -/
structure World where
  pools : Nat → ThreadPool
  reg : Nat → Option Nat
  handles : Nat → HandleState
  next_handle : Nat
  next_tid : Nat

/-- Point update of the handle map. -/
def updH (hs : Nat → HandleState) (i : Nat) (s : HandleState) : Nat → HandleState :=
  fun j => if j = i then s else hs j

/-- Invoking a `PackagedTask`: if it is valid, run the stored closure and
fulfill its future (set `done`, store the result); an invalid task is a
no-op (`if (inner_task.valid()) inner_task();`). -/
def exec_task (hs : Nat → HandleState) (t : PTask) : Nat → HandleState :=
  if t.valid then updH hs t.h { valid := (hs t.h).valid, done := true, result := t.result }
  else hs

/-- Invoking a list of tasks in order. -/
def execAll (hs : Nat → HandleState) (l : List PTask) : Nat → HandleState :=
  l.foldl exec_task hs

/-- Translation of `ThreadPool::lookup_tp` (lines 249-255): the registry entry of the
current thread, falling back to `this` when the thread is not registered. -/
def lookup_tp (reg : Nat → Option Nat) (tid selfp : Nat) : Nat :=
  match reg tid with
  | some p => p
  | none => selfp

/-- The do-while loop of `ThreadPool::wait_or_work` (lines 163-190),
specialized to the host stack it drains: break when the awaited future is
done; otherwise pop the top task, invoke it, and continue; break when the
stack is empty. Returns the final handle map and the remaining stack. -/
def wow_loop (hid : Nat) : (Nat → HandleState) → List PTask → ((Nat → HandleState) × List PTask)
  | hs, [] => (hs, [])
  | hs, t :: rest =>
    if (hs hid).done then (hs, t :: rest)
    else wow_loop hid (exec_task hs t) rest

/-- Translation of `ThreadPool::wait_or_work` (lines 162-194) called on pool object `p`
from thread `tid`, awaiting future `hid`. The final `task.wait()` blocks
forever when the future is still pending, modelled as result `none`. -/
def wait_or_work (w : World) (tid p hid : Nat) : World × Option Status :=
  let host := lookup_tp w.reg tid p
  let r := wow_loop hid w.handles (w.pools host).task_stack
  let w1 : World :=
    { w with handles := r.1,
             pools := fun q => if q = host then { w.pools host with task_stack := r.2 }
                               else w.pools q }
  if (r.1 hid).done then (w1, some (r.1 hid).result) else (w1, none)

/-- Translation of `ThreadPool::wait_all_status` (lines 144-160): per-handle statuses, a
synthetic `ThreadPoolError("Invalid task future")` for each invalid future. -/
def wait_all_status (tid p : Nat) : World → List Nat → World × List (Option Status)
  | w, [] => (w, [])
  | w, hid :: rest =>
    if (w.handles hid).valid then
      let r := wait_or_work w tid p hid
      let rr := wait_all_status tid p r.1 rest
      (rr.1, r.2 :: rr.2)
    else
      let rr := wait_all_status tid p w rest
      (rr.1, some (Status.error "Invalid task future") :: rr.2)

/-- Sequence a list of possibly-blocking results: `none` when some wait
never returns. -/
def seqOpt : List (Option Status) → Option (List Status)
  | [] => some []
  | none :: _ => none
  | some s :: rest =>
    match seqOpt rest with
    | some l => some (s :: l)
    | none => none

/-- The scan loop of `ThreadPool::wait_all` (lines 136-141). -/
def firstNonOk : List Status → Status
  | [] => Status.ok
  | s :: rest => if s.isOk then firstNonOk rest else s

/-- Translation of `ThreadPool::wait_all` (lines 134-142): get all statuses, return the
first non-Ok one, else Ok. -/
def wait_all (w : World) (tid p : Nat) (futs : List Nat) : World × Option Status :=
  let r := wait_all_status tid p w futs
  match seqOpt r.2 with
  | some sts => (r.1, some (firstNonOk sts))
  | none => (r.1, none)

/-- Translation of `ThreadPool::execute` (lines 93-128) on pool `p` with a pure closure
producing `clo`. Returns the new world and the id of the returned future. -/
def execute (w : World) (p : Nat) (clo : Status) : World × Nat :=
  if (w.pools p).concurrency_level = 0 then
    ({ w with handles := updH w.handles w.next_handle ⟨false, false, Status.ok⟩,
              next_handle := w.next_handle + 1 }, w.next_handle)
  else if (w.pools p).should_terminate then
    ({ w with handles := updH w.handles w.next_handle ⟨false, false, Status.ok⟩,
              next_handle := w.next_handle + 1 }, w.next_handle)
  else
    let hid := w.next_handle
    let w1 : World :=
      { w with handles := updH w.handles hid ⟨true, false, Status.ok⟩,
               next_handle := hid + 1 }
    if (w.pools p).concurrency_level > 1 then
      ({ w1 with pools := fun q =>
           if q = p then { w1.pools p with task_stack := ⟨true, hid, clo⟩ :: (w1.pools p).task_stack }
           else w1.pools q }, hid)
    else
      ({ w1 with handles := updH w1.handles hid ⟨true, true, clo⟩ }, hid)

/-- Translation of `ThreadPool::concurrency_level` (lines 130-132). -/
def concurrency_level (w : World) (p : Nat) : Nat :=
  (w.pools p).concurrency_level

/-- Translation of `threads_.emplace_back(...)` spawning one worker with a fresh id. -/
def spawnThread (w : World) (p : Nat) : World :=
  { w with
      pools := fun q =>
        if q = p then { w.pools p with threads := (w.pools p).threads ++ [w.next_tid] }
        else w.pools q,
      next_tid := w.next_tid + 1 }

/-- The spawn loop of `ThreadPool::init` (lines 65-76): `cl` is the
requested concurrency level (used in the error message), `fail i` the
exception message thrown at loop index `i` (if any); the loop breaks at the
first failure. -/
def spawnLoop (p cl : Nat) (fail : Nat → Option String) : World → Nat → Nat → World × Status
  | w, _, 0 => (w, Status.ok)
  | w, i, rem + 1 =>
    match fail i with
    | some msg =>
      (w, Status.error
        ("Error initializing thread pool of concurrencylevel " ++ toString cl ++ "; " ++ msg))
    | none => spawnLoop p cl fail (spawnThread w p) (i + 1) rem

/-- Translation of `ThreadPool::add_tp_index` (lines 237-241): register every current
worker id of pool `p`. -/
def add_tp_index (w : World) (p : Nat) : World :=
  { w with reg := fun tid => if tid ∈ (w.pools p).threads then some p else w.reg tid }

/-- Translation of `ThreadPool::remove_tp_index` (lines 243-247): erase the registry
entries keyed by pool `p`'s worker ids. -/
def remove_tp_index (w : World) (p : Nat) : World :=
  { w with reg := fun tid => if tid ∈ (w.pools p).threads then none else w.reg tid }

/-- One pass of the `ThreadPool::worker` loop body (lines 213-234) taken
when the wait predicate holds: pop the top task if the stack is non-empty
and invoke it. After the pass the worker exits iff `should_terminate_`. -/
def worker_iter (w : World) (p : Nat) : World :=
  match (w.pools p).task_stack with
  | [] => w
  | t :: rest =>
    { w with handles := exec_task w.handles t,
             pools := fun q => if q = p then { w.pools p with task_stack := rest }
                               else w.pools q }

/-- Joining the workers in `ThreadPool::terminate`: each joined worker,
parked on the condition variable, wakes with `should_terminate_` set, runs
one final `worker` pass and exits. -/
def joinAll (p : Nat) : World → List Nat → World
  | w, [] => w
  | w, _ :: ts => joinAll p (worker_iter w p) ts

/-- Lines 197-201 of `ThreadPool::terminate`: set `should_terminate_` under
the stack mutex and notify all workers. -/
def setTermFlag (w : World) (p : Nat) : World :=
  { w with pools := fun q =>
      if q = p then { w.pools p with should_terminate := true } else w.pools q }

/-- Line 209 of `ThreadPool::terminate`: `threads_.clear()`. -/
def clearThreads (w : World) (p : Nat) : World :=
  { w with pools := fun q =>
      if q = p then { w.pools p with threads := [] } else w.pools q }

/-- Translation of `ThreadPool::terminate` (lines 196-210): set the flag and notify,
remove the registry entries, join every worker, clear `threads_`. -/
def terminate (w : World) (p : Nat) : World :=
  clearThreads
    (joinAll p (remove_tp_index (setTermFlag w p) p)
      (((remove_tp_index (setTermFlag w p) p).pools p).threads)) p

/-- Line 85 of `ThreadPool::init`: `concurrency_level_ = concurrency_level;`. -/
def setLevel (w : World) (p n : Nat) : World :=
  { w with pools := fun q =>
      if q = p then { w.pools p with concurrency_level := n } else w.pools q }

/-- Translation of `ThreadPool::init` (lines 54-91): reject level 0; spawn
`concurrency_level - 1` workers, breaking at the first failure; on failure
call `terminate()` and return the error; on success store the level and
register the workers. -/
def init (w : World) (p : Nat) (n : Nat) (fail : Nat → Option String) : World × Status :=
  if n = 0 then
    (w, Status.error "Unable to initialize a thread pool with a concurrency level of 0.")
  else
    let r := spawnLoop p n fail w 0 (n - 1)
    if r.2.isOk then
      (add_tp_index (setLevel r.1 p n) p, Status.ok)
    else
      (terminate r.1 p, r.2)

/-- A parent closure that submits `rem` children (with pure results
`f i`, `f (i+1)`, ...) via `execute`, collecting the returned futures in
submission order. -/
def submitN (p : Nat) (f : Nat → Status) : World → Nat → Nat → World × List Nat
  | w, _, 0 => (w, [])
  | w, i, rem + 1 =>
    let r := execute w p (f i)
    let rr := submitN p f r.1 (i + 1) rem
    (rr.1, r.2 :: rr.2)

/-- A default-constructed `ThreadPool` (lines 45-48). -/
def emptyPool : ThreadPool := ⟨0, false, [], []⟩

/-- A fresh process: every pool default-constructed, empty registry, all
futures default-constructed (invalid). -/
def pristine : World := ⟨fun _ => emptyPool, fun _ => none, fun _ => ⟨false, false, Status.ok⟩, 0, 0⟩

/-! ### Basic lemmas about task execution -/

theorem exec_task_valid (hs : Nat → HandleState) (t : PTask) (x : Nat) :
    (exec_task hs t x).valid = (hs x).valid := by
  unfold exec_task updH
  split
  · by_cases hx : x = t.h <;> simp [hx]
  · rfl

theorem exec_task_done_mono (hs : Nat → HandleState) (t : PTask) (x : Nat)
    (h : (hs x).done = true) : (exec_task hs t x).done = true := by
  unfold exec_task updH
  split
  · by_cases hx : x = t.h <;> simp [hx, h]
  · exact h

theorem exec_task_ne (hs : Nat → HandleState) (t : PTask) (x : Nat) (h : t.h ≠ x) :
    exec_task hs t x = hs x := by
  have hx : ¬ (x = t.h) := fun hh => h hh.symm
  unfold exec_task updH
  split
  · simp [hx]
  · rfl

theorem exec_task_self (hs : Nat → HandleState) (t : PTask) (hv : t.valid = true) :
    exec_task hs t t.h = { valid := (hs t.h).valid, done := true, result := t.result } := by
  unfold exec_task updH
  simp [hv]

theorem execAll_cons (hs : Nat → HandleState) (t : PTask) (l : List PTask) :
    execAll hs (t :: l) = execAll (exec_task hs t) l := rfl

theorem execAll_valid (l : List PTask) :
    ∀ (hs : Nat → HandleState) (x : Nat), (execAll hs l x).valid = (hs x).valid := by
  induction l with
  | nil => intro hs x; rfl
  | cons t rest ih =>
    intro hs x
    rw [execAll_cons, ih, exec_task_valid]

theorem execAll_done_mono (l : List PTask) :
    ∀ (hs : Nat → HandleState) (x : Nat), (hs x).done = true → (execAll hs l x).done = true := by
  induction l with
  | nil => intro hs x h; exact h
  | cons t rest ih =>
    intro hs x h
    exact ih (exec_task hs t) x (exec_task_done_mono hs t x h)

theorem execAll_member_done (l : List PTask) :
    ∀ (hs : Nat → HandleState) (x : Nat),
    (∃ t ∈ l, t.valid = true ∧ t.h = x) → (execAll hs l x).done = true := by
  induction l with
  | nil => intro hs x h; simp at h
  | cons u rest ih =>
    intro hs x h
    obtain ⟨t, ht, hv, hh⟩ := h
    rcases List.mem_cons.mp ht with rfl | hmem
    · have h1 : (exec_task hs t x).done = true := by
        subst hh
        rw [exec_task_self hs t hv]
      exact execAll_done_mono rest (exec_task hs t) x h1
    · exact ih (exec_task hs u) x ⟨t, hmem, hv, hh⟩

theorem execAll_result (l : List PTask) :
    ∀ (hs : Nat → HandleState) (x : Nat) (s : Status),
    (∀ t ∈ l, t.h = x → t.valid = true ∧ t.result = s) →
    ((hs x).done = true → (hs x).result = s) →
    (execAll hs l x).done = true → (execAll hs l x).result = s := by
  induction l with
  | nil => intro hs x s _ hbase hdone; exact hbase hdone
  | cons t rest ih =>
    intro hs x s hall hbase hdone
    rw [execAll_cons] at hdone ⊢
    refine ih (exec_task hs t) x s (fun u hu => hall u (List.mem_cons_of_mem t hu)) ?_ hdone
    intro hd2
    by_cases hx : t.h = x
    · obtain ⟨hv, hr⟩ := hall t (List.mem_cons_self t rest) hx
      subst hx
      rw [exec_task_self hs t hv]
      exact hr
    · rw [exec_task_ne hs t x hx] at hd2 ⊢
      exact hbase hd2

theorem execAll_untouched (l : List PTask) :
    ∀ (hs : Nat → HandleState) (x : Nat),
    (∀ t ∈ l, t.h ≠ x) → execAll hs l x = hs x := by
  induction l with
  | nil => intro hs x _; rfl
  | cons t rest ih =>
    intro hs x h
    rw [execAll_cons, ih (exec_task hs t) x (fun u hu => h u (List.mem_cons_of_mem t hu)),
        exec_task_ne hs t x (h t (List.mem_cons_self t rest))]

/-! ### The wait loop -/

theorem wow_loop_done (hid : Nat) (hs : Nat → HandleState) (l : List PTask)
    (h : (hs hid).done = true) : wow_loop hid hs l = (hs, l) := by
  cases l with
  | nil => rfl
  | cons t rest => simp [wow_loop, h]

theorem wow_loop_spec (hid : Nat) :
    ∀ (l : List PTask) (hs : Nat → HandleState),
    ∃ k, k ≤ l.length ∧
      wow_loop hid hs l = (execAll hs (l.take k), l.drop k) ∧
      (l.drop k ≠ [] → ((execAll hs (l.take k)) hid).done = true) := by
  intro l
  induction l with
  | nil =>
    intro hs
    exact ⟨0, by simp, by simp [wow_loop, execAll], by simp⟩
  | cons t rest ih =>
    intro hs
    by_cases hd : (hs hid).done = true
    · refine ⟨0, by simp, ?_, ?_⟩
      · simp [wow_loop, hd, execAll]
      · intro _; simpa [execAll] using hd
    · obtain ⟨k, hk, heq, hdone⟩ := ih (exec_task hs t)
      refine ⟨k + 1, by simpa using Nat.succ_le_succ hk, ?_, ?_⟩
      · simp only [wow_loop, hd, if_false, List.take_succ_cons, List.drop_succ_cons,
          execAll_cons]
        exact heq
      · intro hne
        simpa [execAll_cons] using hdone (by simpa using hne)

/-! ### Characterization of `wait_or_work` -/

theorem wait_or_work_char (w : World) (tid p hid : Nat) :
    ∃ k, k ≤ ((w.pools (lookup_tp w.reg tid p)).task_stack).length ∧
      (wait_or_work w tid p hid).1.handles
        = execAll w.handles (((w.pools (lookup_tp w.reg tid p)).task_stack).take k) ∧
      ((wait_or_work w tid p hid).1.pools (lookup_tp w.reg tid p)).task_stack
        = ((w.pools (lookup_tp w.reg tid p)).task_stack).drop k ∧
      ((wait_or_work w tid p hid).1.pools (lookup_tp w.reg tid p)).should_terminate
        = (w.pools (lookup_tp w.reg tid p)).should_terminate ∧
      ((wait_or_work w tid p hid).1.pools (lookup_tp w.reg tid p)).concurrency_level
        = (w.pools (lookup_tp w.reg tid p)).concurrency_level ∧
      ((wait_or_work w tid p hid).1.pools (lookup_tp w.reg tid p)).threads
        = (w.pools (lookup_tp w.reg tid p)).threads ∧
      (∀ q, q ≠ lookup_tp w.reg tid p → (wait_or_work w tid p hid).1.pools q = w.pools q) ∧
      (wait_or_work w tid p hid).1.reg = w.reg ∧
      (wait_or_work w tid p hid).1.next_handle = w.next_handle ∧
      (wait_or_work w tid p hid).1.next_tid = w.next_tid ∧
      ((wait_or_work w tid p hid).2 = none →
        ((wait_or_work w tid p hid).1.handles hid).done = false ∧
        ((wait_or_work w tid p hid).1.pools (lookup_tp w.reg tid p)).task_stack = []) ∧
      ((wait_or_work w tid p hid).2 ≠ none →
        ((wait_or_work w tid p hid).1.handles hid).done = true ∧
        (wait_or_work w tid p hid).2 = some (((wait_or_work w tid p hid).1.handles hid).result)) := by
  obtain ⟨k, hk, heq, hbr⟩ :=
    wow_loop_spec hid ((w.pools (lookup_tp w.reg tid p)).task_stack) w.handles
  by_cases hd : ((execAll w.handles (((w.pools (lookup_tp w.reg tid p)).task_stack).take k)) hid).done = true
  · have hw : wait_or_work w tid p hid =
        ({ w with
            handles := execAll w.handles (((w.pools (lookup_tp w.reg tid p)).task_stack).take k),
            pools := fun q => if q = lookup_tp w.reg tid p
                then { w.pools (lookup_tp w.reg tid p) with
                       task_stack := ((w.pools (lookup_tp w.reg tid p)).task_stack).drop k }
                else w.pools q },
         some ((execAll w.handles (((w.pools (lookup_tp w.reg tid p)).task_stack).take k)) hid).result) := by
      simp only [wait_or_work, heq]
      rw [if_pos hd]
    refine ⟨k, hk, ?_, ?_, ?_, ?_, ?_, ?_, ?_, ?_, ?_, ?_, ?_⟩
    · rw [hw]
    · rw [hw]; simp
    · rw [hw]; simp
    · rw [hw]; simp
    · rw [hw]; simp
    · intro q hq; rw [hw]; simp [hq]
    · rw [hw]
    · rw [hw]
    · rw [hw]
    · rw [hw]; simp
    · rw [hw]; intro _; exact ⟨hd, rfl⟩
  · have hd0 : ((execAll w.handles (((w.pools (lookup_tp w.reg tid p)).task_stack).take k)) hid).done = false :=
      Bool.eq_false_iff.mpr hd
    have hempty : ((w.pools (lookup_tp w.reg tid p)).task_stack).drop k = [] := by
      by_contra hne
      exact hd (hbr hne)
    have hw : wait_or_work w tid p hid =
        ({ w with
            handles := execAll w.handles (((w.pools (lookup_tp w.reg tid p)).task_stack).take k),
            pools := fun q => if q = lookup_tp w.reg tid p
                then { w.pools (lookup_tp w.reg tid p) with
                       task_stack := ((w.pools (lookup_tp w.reg tid p)).task_stack).drop k }
                else w.pools q },
         none) := by
      simp only [wait_or_work, heq]
      rw [if_neg hd]
    refine ⟨k, hk, ?_, ?_, ?_, ?_, ?_, ?_, ?_, ?_, ?_, ?_, ?_⟩
    · rw [hw]
    · rw [hw]; simp
    · rw [hw]; simp
    · rw [hw]; simp
    · rw [hw]; simp
    · intro q hq; rw [hw]; simp [hq]
    · rw [hw]
    · rw [hw]
    · rw [hw]
    · rw [hw]; intro _; exact ⟨hd0, by simp [hempty]⟩
    · rw [hw]; intro h; exact absurd rfl h

/-- A future is `hReady` for a result assignment `res` when it is either
already completed with `res hid`, or still pending with the task that
fulfills it sitting on pool `p`'s stack. -/
def hReady (w : World) (p : Nat) (res : Nat → Status) (hid : Nat) : Prop :=
  ((w.handles hid).done = true ∧ (w.handles hid).result = res hid) ∨
  ((w.handles hid).done = false ∧ (⟨true, hid, res hid⟩ : PTask) ∈ (w.pools p).task_stack)

/-- Every task on pool `p`'s stack that targets one of the listed futures
is valid and carries that future's assigned result. -/
def stackOk (w : World) (p : Nat) (res : Nat → Status) (ids : List Nat) : Prop :=
  ∀ t ∈ (w.pools p).task_stack, t.h ∈ ids → t.valid = true ∧ t.result = res t.h

theorem wait_or_work_hit (w : World) (tid p hid : Nat) (res : Nat → Status)
    (hhost : lookup_tp w.reg tid p = p)
    (hready : hReady w p res hid)
    (hpay : ∀ t ∈ (w.pools p).task_stack, t.h = hid → t.valid = true ∧ t.result = res hid) :
    (wait_or_work w tid p hid).2 = some (res hid) := by
  obtain ⟨k, hk, hH, hS, _, _, _, _, _, _, _, hNone, hSome⟩ := wait_or_work_char w tid p hid
  rw [hhost] at hH hS hNone
  have hpay' : ∀ t ∈ ((w.pools p).task_stack).take k, t.h = hid → t.valid = true ∧ t.result = res hid :=
    fun t ht => hpay t (List.mem_of_mem_take ht)
  have hdone : ((wait_or_work w tid p hid).1.handles hid).done = true := by
    rcases hready with ⟨hd, _⟩ | ⟨hd, hmem⟩
    · rw [hH]; exact execAll_done_mono _ _ _ hd
    · by_cases hres : (wait_or_work w tid p hid).2 = none
      · obtain ⟨hdf, hdrop⟩ := hNone hres
        have hall : (w.pools p).task_stack = ((w.pools p).task_stack).take k := by
          conv_lhs => rw [← List.take_append_drop k ((w.pools p).task_stack)]
          rw [hS] at hdrop
          rw [hdrop, List.append_nil]
        rw [hH]
        apply execAll_member_done
        exact ⟨⟨true, hid, res hid⟩, by rw [← hall]; exact hmem, rfl, rfl⟩
      · exact (hSome hres).1
  have hres2 : (wait_or_work w tid p hid).2 ≠ none := by
    intro hn
    rw [(hNone hn).1] at hdone
    exact Bool.false_ne_true hdone
  obtain ⟨_, hval⟩ := hSome hres2
  rw [hval]
  congr 1
  rw [hH] at hdone ⊢
  apply execAll_result _ _ _ _ hpay' _ hdone
  rcases hready with ⟨hd, hr⟩ | ⟨hd, _⟩
  · intro _; exact hr
  · intro hcon; rw [hd] at hcon; exact absurd hcon (by simp)

theorem wait_or_work_valid_pres (w : World) (tid p hid x : Nat) :
    ((wait_or_work w tid p hid).1.handles x).valid = (w.handles x).valid := by
  obtain ⟨k, _, hH, _⟩ := wait_or_work_char w tid p hid
  rw [hH, execAll_valid]

theorem wait_all_status_length (tid p : Nat) :
    ∀ (futs : List Nat) (w : World),
    ((wait_all_status tid p w futs).2).length = futs.length := by
  intro futs
  induction futs with
  | nil => intro w; rfl
  | cons hid rest ih =>
    intro w
    by_cases hv : (w.handles hid).valid = true
    · simp only [wait_all_status]
      rw [if_pos hv]
      simp [ih]
    · simp only [wait_all_status]
      rw [if_neg hv]
      simp [ih]

/-- Main helper: when each listed future is invalid, already completed with
its assigned result, or pending with its fulfilling task on pool `p`'s
stack (and every stack task targeting a listed future carries the assigned
result), `wait_all_status` returns exactly the assigned results in input
order, with the synthetic error for invalid futures — and no wait blocks. -/
theorem wait_all_status_spec (tid p : Nat) (res : Nat → Status) :
    ∀ (futs : List Nat) (w : World),
    lookup_tp w.reg tid p = p →
    (∀ hid ∈ futs, (w.handles hid).valid = false ∨
        ((w.handles hid).valid = true ∧ hReady w p res hid)) →
    stackOk w p res futs →
    (wait_all_status tid p w futs).2
      = futs.map (fun hid => if (w.handles hid).valid = true then some (res hid)
                             else some (Status.error "Invalid task future")) := by
  intro futs
  induction futs with
  | nil => intro w _ _ _; rfl
  | cons hid rest ih =>
    intro w hhost hrdy hstk
    have hstkrest : stackOk w p res rest := by
      intro t ht hmem
      exact hstk t ht (List.mem_cons_of_mem _ hmem)
    rcases hrdy hid (List.mem_cons_self hid rest) with hval | ⟨hval, hready⟩
    · -- invalid future: synthetic error, no wait
      have hvalf : ¬ ((w.handles hid).valid = true) := by simp [hval]
      simp only [wait_all_status]
      rw [if_neg hvalf, List.map_cons, if_neg hvalf]
      have hrdyrest : ∀ h ∈ rest, (w.handles h).valid = false ∨
          ((w.handles h).valid = true ∧ hReady w p res h) :=
        fun h hm => hrdy h (List.mem_cons_of_mem _ hm)
      simp [ih w hhost hrdyrest hstkrest]
    · -- valid future
      obtain ⟨k, hk, hH, hS, _, _, _, _, hR, _, _, _, _⟩ := wait_or_work_char w tid p hid
      rw [hhost] at hH hS
      have hhit : (wait_or_work w tid p hid).2 = some (res hid) := by
        apply wait_or_work_hit w tid p hid res hhost hready
        intro t ht hth
        obtain ⟨h1, h2⟩ := hstk t ht (by rw [hth]; exact List.mem_cons_self hid rest)
        refine ⟨h1, ?_⟩
        rw [h2, hth]
      have hhost2 : lookup_tp (wait_or_work w tid p hid).1.reg tid p = p := by
        rw [hR]; exact hhost
      have hstk2 : stackOk (wait_or_work w tid p hid).1 p res rest := by
        intro t ht hmem
        rw [hS] at ht
        exact hstk t (List.mem_of_mem_drop ht) (List.mem_cons_of_mem _ hmem)
      have hrdy2 : ∀ h ∈ rest, ((wait_or_work w tid p hid).1.handles h).valid = false ∨
          (((wait_or_work w tid p hid).1.handles h).valid = true ∧
            hReady (wait_or_work w tid p hid).1 p res h) := by
        intro h hmem
        have hpayh : ∀ t ∈ ((w.pools p).task_stack).take k,
            t.h = h → t.valid = true ∧ t.result = res h := by
          intro t ht hth
          obtain ⟨h1, h2⟩ := hstk t (List.mem_of_mem_take ht)
            (by rw [hth]; exact List.mem_cons_of_mem _ hmem)
          refine ⟨h1, ?_⟩
          rw [h2, hth]
        rcases hrdy h (List.mem_cons_of_mem _ hmem) with hv | ⟨hv, hrd⟩
        · left; rw [wait_or_work_valid_pres]; exact hv
        · right
          refine ⟨by rw [wait_or_work_valid_pres]; exact hv, ?_⟩
          rcases hrd with ⟨hd, hr⟩ | ⟨hd, htask⟩
          · left
            rw [hH]
            exact ⟨execAll_done_mono _ _ _ hd,
              execAll_result _ _ _ _ hpayh (fun _ => hr) (execAll_done_mono _ _ _ hd)⟩
          · by_cases hd2 : (execAll w.handles (((w.pools p).task_stack).take k) h).done = true
            · left
              rw [hH]
              refine ⟨hd2, execAll_result _ _ _ _ hpayh ?_ hd2⟩
              intro hc
              rw [hd] at hc
              exact absurd hc (by simp)
            · right
              refine ⟨by rw [hH]; exact Bool.eq_false_iff.mpr hd2, ?_⟩
              have hmem2 : (⟨true, h, res h⟩ : PTask) ∈
                  ((w.pools p).task_stack).take k ++ ((w.pools p).task_stack).drop k := by
                rw [List.take_append_drop]; exact htask
              rcases List.mem_append.mp hmem2 with hin | hin
              · exact absurd (execAll_member_done _ _ _ ⟨_, hin, rfl, rfl⟩) hd2
              · rw [hS]; exact hin
      have hmapeq : rest.map (fun h => if ((wait_or_work w tid p hid).1.handles h).valid = true
            then some (res h) else some (Status.error "Invalid task future"))
          = rest.map (fun h => if (w.handles h).valid = true
            then some (res h) else some (Status.error "Invalid task future")) := by
        apply List.map_congr_left
        intro h _
        rw [wait_or_work_valid_pres]
      simp only [wait_all_status]
      rw [if_pos hval, List.map_cons, if_pos hval]
      have hrec := ih (wait_or_work w tid p hid).1 hhost2 hrdy2 hstk2
      rw [hmapeq] at hrec
      simp [hhit, hrec]

/-! ### Characterization of `terminate` -/

theorem execAll_append (hs : Nat → HandleState) (a b : List PTask) :
    execAll hs (a ++ b) = execAll (execAll hs a) b := by
  simp [execAll, List.foldl_append]

theorem worker_iter_char (w : World) (p : Nat) :
    (worker_iter w p).handles = execAll w.handles ((w.pools p).task_stack.take 1) ∧
    ((worker_iter w p).pools p).task_stack = (w.pools p).task_stack.drop 1 ∧
    ((worker_iter w p).pools p).should_terminate = (w.pools p).should_terminate ∧
    ((worker_iter w p).pools p).concurrency_level = (w.pools p).concurrency_level ∧
    ((worker_iter w p).pools p).threads = (w.pools p).threads ∧
    (∀ q, q ≠ p → (worker_iter w p).pools q = w.pools q) ∧
    (worker_iter w p).reg = w.reg ∧
    (worker_iter w p).next_handle = w.next_handle ∧
    (worker_iter w p).next_tid = w.next_tid := by
  cases hstk : (w.pools p).task_stack with
  | nil =>
    have hwi : worker_iter w p = w := by simp [worker_iter, hstk]
    rw [hwi]
    exact ⟨rfl, by simpa using hstk, rfl, rfl, rfl, fun q _ => rfl, rfl, rfl, rfl⟩
  | cons t rest =>
    have hwi : worker_iter w p =
        { w with handles := exec_task w.handles t,
                 pools := fun q => if q = p then { w.pools p with task_stack := rest }
                                   else w.pools q } := by
      simp [worker_iter, hstk]
    rw [hwi]
    refine ⟨rfl, by simp, by simp, by simp, by simp, ?_, rfl, rfl, rfl⟩
    intro q hq
    simp [hq]

theorem joinAll_char (p : Nat) :
    ∀ (ts : List Nat) (w : World),
    (joinAll p w ts).handles = execAll w.handles ((w.pools p).task_stack.take ts.length) ∧
    ((joinAll p w ts).pools p).task_stack = (w.pools p).task_stack.drop ts.length ∧
    ((joinAll p w ts).pools p).should_terminate = (w.pools p).should_terminate ∧
    ((joinAll p w ts).pools p).concurrency_level = (w.pools p).concurrency_level ∧
    ((joinAll p w ts).pools p).threads = (w.pools p).threads ∧
    (∀ q, q ≠ p → (joinAll p w ts).pools q = w.pools q) ∧
    (joinAll p w ts).reg = w.reg ∧
    (joinAll p w ts).next_handle = w.next_handle ∧
    (joinAll p w ts).next_tid = w.next_tid := by
  intro ts
  induction ts with
  | nil =>
    intro w
    exact ⟨rfl, rfl, rfl, rfl, rfl, fun q _ => rfl, rfl, rfl, rfl⟩
  | cons t ts ih =>
    intro w
    obtain ⟨hw1, hw2, hw3, hw4, hw5, hw6, hw7, hw8, hw9⟩ := worker_iter_char w p
    obtain ⟨ih1, ih2, ih3, ih4, ih5, ih6, ih7, ih8, ih9⟩ := ih (worker_iter w p)
    simp only [joinAll]
    refine ⟨?_, ?_, ?_, ?_, ?_, ?_, ?_, ?_, ?_⟩
    · rw [ih1, hw1, hw2, ← execAll_append, ← List.take_add, List.length_cons, Nat.add_comm]
    · rw [ih2, hw2, List.drop_drop, List.length_cons, Nat.add_comm]
    · rw [ih3, hw3]
    · rw [ih4, hw4]
    · rw [ih5, hw5]
    · intro q hq; rw [ih6 q hq, hw6 q hq]
    · rw [ih7, hw7]
    · rw [ih8, hw8]
    · rw [ih9, hw9]

theorem terminate_char (w : World) (p : Nat) :
    ((terminate w p).pools p).concurrency_level = (w.pools p).concurrency_level ∧
    ((terminate w p).pools p).should_terminate = true ∧
    ((terminate w p).pools p).threads = [] ∧
    ((terminate w p).pools p).task_stack
      = (w.pools p).task_stack.drop ((w.pools p).threads).length ∧
    (terminate w p).handles
      = execAll w.handles ((w.pools p).task_stack.take ((w.pools p).threads).length) ∧
    (∀ q, q ≠ p → (terminate w p).pools q = w.pools q) ∧
    (terminate w p).reg
      = (fun tid => if tid ∈ (w.pools p).threads then none else w.reg tid) ∧
    (terminate w p).next_handle = w.next_handle ∧
    (terminate w p).next_tid = w.next_tid := by
  have h1p : (setTermFlag w p).pools p = { w.pools p with should_terminate := true } := by
    simp [setTermFlag]
  have h1q : ∀ q, q ≠ p → (setTermFlag w p).pools q = w.pools q := by
    intro q hq; simp [setTermFlag, hq]
  have h2p : (remove_tp_index (setTermFlag w p) p).pools p
      = { w.pools p with should_terminate := true } := by
    simp [remove_tp_index, h1p]
  have h2q : ∀ q, q ≠ p → (remove_tp_index (setTermFlag w p) p).pools q = w.pools q := by
    intro q hq; simp [remove_tp_index]; exact h1q q hq
  have h2reg : (remove_tp_index (setTermFlag w p) p).reg
      = (fun tid => if tid ∈ (w.pools p).threads then none else w.reg tid) := by
    funext tid
    simp [remove_tp_index, setTermFlag, h1p]
  have h2h : (remove_tp_index (setTermFlag w p) p).handles = w.handles := rfl
  obtain ⟨j1, j2, j3, j4, j5, j6, j7, j8, j9⟩ :=
    joinAll_char p (((remove_tp_index (setTermFlag w p) p).pools p).threads)
      (remove_tp_index (setTermFlag w p) p)
  have hterm : terminate w p
      = clearThreads
          (joinAll p (remove_tp_index (setTermFlag w p) p)
            (((remove_tp_index (setTermFlag w p) p).pools p).threads)) p := rfl
  have hthreads : ((remove_tp_index (setTermFlag w p) p).pools p).threads
      = (w.pools p).threads := by rw [h2p]
  have hstack : ((remove_tp_index (setTermFlag w p) p).pools p).task_stack
      = (w.pools p).task_stack := by rw [h2p]
  refine ⟨?_, ?_, ?_, ?_, ?_, ?_, ?_, ?_, ?_⟩
  · rw [hterm]
    simp only [clearThreads, if_pos rfl]
    show ((joinAll p (remove_tp_index (setTermFlag w p) p)
        (((remove_tp_index (setTermFlag w p) p).pools p).threads)).pools p).concurrency_level = _
    rw [j4, h2p]
  · rw [hterm]
    simp only [clearThreads, if_pos rfl]
    show ((joinAll p (remove_tp_index (setTermFlag w p) p)
        (((remove_tp_index (setTermFlag w p) p).pools p).threads)).pools p).should_terminate = true
    rw [j3, h2p]
  · rw [hterm]
    simp [clearThreads]
  · rw [hterm]
    simp only [clearThreads, if_pos rfl]
    show ((joinAll p (remove_tp_index (setTermFlag w p) p)
        (((remove_tp_index (setTermFlag w p) p).pools p).threads)).pools p).task_stack = _
    rw [j2, hstack, hthreads]
  · rw [hterm]
    show (joinAll p (remove_tp_index (setTermFlag w p) p)
        (((remove_tp_index (setTermFlag w p) p).pools p).threads)).handles = _
    rw [j1, h2h, hstack, hthreads]
  · intro q hq
    rw [hterm]
    simp only [clearThreads, if_neg hq]
    rw [j6 q hq, h2q q hq]
  · rw [hterm]
    show (joinAll p (remove_tp_index (setTermFlag w p) p)
        (((remove_tp_index (setTermFlag w p) p).pools p).threads)).reg = _
    rw [j7, h2reg]
  · rw [hterm]
    show (joinAll p (remove_tp_index (setTermFlag w p) p)
        (((remove_tp_index (setTermFlag w p) p).pools p).threads)).next_handle = w.next_handle
    rw [j8]
    rfl
  · rw [hterm]
    show (joinAll p (remove_tp_index (setTermFlag w p) p)
        (((remove_tp_index (setTermFlag w p) p).pools p).threads)).next_tid = w.next_tid
    rw [j9]
    rfl

theorem tp_set_term_self (t : ThreadPool) (h : t.should_terminate = true) :
    ({ t with should_terminate := true } : ThreadPool) = t := by
  cases t
  simp_all

theorem tp_clear_threads_self (t : ThreadPool) (h : t.threads = []) :
    ({ t with threads := [] } : ThreadPool) = t := by
  cases t
  simp_all

theorem pools_upd_self (w : World) (p : Nat) (t : ThreadPool) (h : t = w.pools p) :
    (fun q => if q = p then t else w.pools q) = w.pools := by
  funext q
  by_cases hq : q = p
  · rw [if_pos hq, h, hq]
  · rw [if_neg hq]

/-- A pool whose terminate flag is already set and whose worker list is
already empty is a fixed point of `terminate`. -/
theorem terminate_stable (w : World) (p : Nat)
    (hflag : (w.pools p).should_terminate = true)
    (hth : (w.pools p).threads = []) :
    terminate w p = w := by
  have h1 : setTermFlag w p = w := by
    unfold setTermFlag
    rw [pools_upd_self w p _ (tp_set_term_self (w.pools p) hflag)]
  have h2 : remove_tp_index w p = w := by
    unfold remove_tp_index
    rw [hth]
    have hr : (fun tid => if tid ∈ ([] : List Nat) then none else w.reg tid) = w.reg := by
      funext tid
      simp
    rw [hr]
  have h4 : clearThreads w p = w := by
    unfold clearThreads
    rw [pools_upd_self w p _ (tp_clear_threads_self (w.pools p) hth)]
  show clearThreads (joinAll p (remove_tp_index (setTermFlag w p) p)
      (((remove_tp_index (setTermFlag w p) p).pools p).threads)) p = w
  rw [h1, h2, hth]
  show clearThreads (joinAll p w []) p = w
  show clearThreads w p = w
  exact h4

/-! ### Characterization of `init` -/

theorem spawnLoop_ok_char (p cl : Nat) :
    ∀ (rem i : Nat) (w : World),
    (spawnLoop p cl (fun _ => none) w i rem).2 = Status.ok ∧
    ((spawnLoop p cl (fun _ => none) w i rem).1.pools p).threads
      = (w.pools p).threads ++ List.range' w.next_tid rem ∧
    ((spawnLoop p cl (fun _ => none) w i rem).1.pools p).should_terminate
      = (w.pools p).should_terminate ∧
    ((spawnLoop p cl (fun _ => none) w i rem).1.pools p).concurrency_level
      = (w.pools p).concurrency_level ∧
    ((spawnLoop p cl (fun _ => none) w i rem).1.pools p).task_stack
      = (w.pools p).task_stack ∧
    (∀ q, q ≠ p → (spawnLoop p cl (fun _ => none) w i rem).1.pools q = w.pools q) ∧
    (spawnLoop p cl (fun _ => none) w i rem).1.reg = w.reg ∧
    (spawnLoop p cl (fun _ => none) w i rem).1.handles = w.handles ∧
    (spawnLoop p cl (fun _ => none) w i rem).1.next_handle = w.next_handle ∧
    (spawnLoop p cl (fun _ => none) w i rem).1.next_tid = w.next_tid + rem := by
  intro rem
  induction rem with
  | zero =>
    intro i w
    refine ⟨rfl, ?_, rfl, rfl, rfl, fun q _ => rfl, rfl, rfl, rfl, rfl⟩
    show (w.pools p).threads = (w.pools p).threads ++ List.range' w.next_tid 0
    simp
  | succ n ih =>
    intro i w
    obtain ⟨ih1, ih2, ih3, ih4, ih5, ih6, ih7, ih8, ih9, ih10⟩ := ih (i + 1) (spawnThread w p)
    have hsp : (spawnThread w p).pools p
        = { w.pools p with threads := (w.pools p).threads ++ [w.next_tid] } := by
      simp [spawnThread]
    have hspq : ∀ q, q ≠ p → (spawnThread w p).pools q = w.pools q := by
      intro q hq
      simp [spawnThread, hq]
    have hstep : spawnLoop p cl (fun _ => none) w i (n + 1)
        = spawnLoop p cl (fun _ => none) (spawnThread w p) (i + 1) n := rfl
    rw [hstep]
    refine ⟨ih1, ?_, ?_, ?_, ?_, ?_, ih7, ih8, ih9, ?_⟩
    · rw [ih2, hsp]
      show (w.pools p).threads ++ [w.next_tid] ++ List.range' (spawnThread w p).next_tid n
        = (w.pools p).threads ++ List.range' w.next_tid (n + 1)
      have hnt : (spawnThread w p).next_tid = w.next_tid + 1 := rfl
      rw [hnt, List.append_assoc]
      congr 1
    · rw [ih3, hsp]
    · rw [ih4, hsp]
    · rw [ih5, hsp]
    · intro q hq
      rw [ih6 q hq, hspq q hq]
    · rw [ih10]
      show w.next_tid + 1 + n = w.next_tid + (n + 1)
      omega

theorem spawnLoop_fail_char (p cl : Nat) (fail : Nat → Option String) (msg : String) :
    ∀ (k rem i : Nat) (w : World),
    (∀ j, j < k → fail (i + j) = none) → fail (i + k) = some msg → k < rem →
    (spawnLoop p cl fail w i rem).2
      = Status.error ("Error initializing thread pool of concurrencylevel "
          ++ toString cl ++ "; " ++ msg) ∧
    ((spawnLoop p cl fail w i rem).1.pools p).threads
      = (w.pools p).threads ++ List.range' w.next_tid k ∧
    ((spawnLoop p cl fail w i rem).1.pools p).should_terminate
      = (w.pools p).should_terminate ∧
    ((spawnLoop p cl fail w i rem).1.pools p).concurrency_level
      = (w.pools p).concurrency_level ∧
    ((spawnLoop p cl fail w i rem).1.pools p).task_stack = (w.pools p).task_stack ∧
    (∀ q, q ≠ p → (spawnLoop p cl fail w i rem).1.pools q = w.pools q) ∧
    (spawnLoop p cl fail w i rem).1.reg = w.reg ∧
    (spawnLoop p cl fail w i rem).1.handles = w.handles ∧
    (spawnLoop p cl fail w i rem).1.next_handle = w.next_handle := by
  intro k
  induction k with
  | zero =>
    intro rem i w hpre hfk hlt
    have hfi : fail i = some msg := by simpa using hfk
    cases rem with
    | zero => omega
    | succ m =>
      have hstep : spawnLoop p cl fail w i (m + 1)
          = (w, Status.error ("Error initializing thread pool of concurrencylevel "
              ++ toString cl ++ "; " ++ msg)) := by
        simp [spawnLoop, hfi]
      rw [hstep]
      refine ⟨rfl, ?_, rfl, rfl, rfl, fun q _ => rfl, rfl, rfl, rfl⟩
      show (w.pools p).threads = (w.pools p).threads ++ List.range' w.next_tid 0
      simp
  | succ k ih =>
    intro rem i w hpre hfk hlt
    have hfi : fail i = none := by simpa using hpre 0 (Nat.succ_pos k)
    cases rem with
    | zero => omega
    | succ m =>
      have hstep : spawnLoop p cl fail w i (m + 1)
          = spawnLoop p cl fail (spawnThread w p) (i + 1) m := by
        simp [spawnLoop, hfi]
      have hpre2 : ∀ j, j < k → fail (i + 1 + j) = none := by
        intro j hj
        have := hpre (j + 1) (by omega)
        simpa [Nat.add_assoc, Nat.add_comm 1 j] using this
      have hfk2 : fail (i + 1 + k) = some msg := by
        have : i + (k + 1) = i + 1 + k := by omega
        rw [← this]
        exact hfk
      obtain ⟨ih1, ih2, ih3, ih4, ih5, ih6, ih7, ih8, ih9⟩ :=
        ih m (i + 1) (spawnThread w p) hpre2 hfk2 (by omega)
      have hsp : (spawnThread w p).pools p
          = { w.pools p with threads := (w.pools p).threads ++ [w.next_tid] } := by
        simp [spawnThread]
      have hspq : ∀ q, q ≠ p → (spawnThread w p).pools q = w.pools q := by
        intro q hq
        simp [spawnThread, hq]
      rw [hstep]
      refine ⟨ih1, ?_, ?_, ?_, ?_, ?_, ih7, ih8, ih9⟩
      · rw [ih2, hsp]
        show (w.pools p).threads ++ [w.next_tid] ++ List.range' (spawnThread w p).next_tid k
          = (w.pools p).threads ++ List.range' w.next_tid (k + 1)
        have hnt : (spawnThread w p).next_tid = w.next_tid + 1 := rfl
        rw [hnt, List.append_assoc]
        congr 1
      · rw [ih3, hsp]
      · rw [ih4, hsp]
      · rw [ih5, hsp]
      · intro q hq
        rw [ih6 q hq, hspq q hq]

theorem init_ok_char (w : World) (p n : Nat) (hn : ¬ (n = 0)) :
    (init w p n (fun _ => none)).2 = Status.ok ∧
    ((init w p n (fun _ => none)).1.pools p).concurrency_level = n ∧
    ((init w p n (fun _ => none)).1.pools p).should_terminate
      = (w.pools p).should_terminate ∧
    ((init w p n (fun _ => none)).1.pools p).threads
      = (w.pools p).threads ++ List.range' w.next_tid (n - 1) ∧
    ((init w p n (fun _ => none)).1.pools p).task_stack = (w.pools p).task_stack ∧
    (∀ q, q ≠ p → (init w p n (fun _ => none)).1.pools q = w.pools q) ∧
    ((init w p n (fun _ => none)).1.reg)
      = (fun tid => if tid ∈ (w.pools p).threads ++ List.range' w.next_tid (n - 1)
          then some p else w.reg tid) ∧
    (init w p n (fun _ => none)).1.handles = w.handles ∧
    (init w p n (fun _ => none)).1.next_handle = w.next_handle ∧
    (init w p n (fun _ => none)).1.next_tid = w.next_tid + (n - 1) := by
  obtain ⟨s1, s2, s3, s4, s5, s6, s7, s8, s9, s10⟩ := spawnLoop_ok_char p n (n - 1) 0 w
  have hinit : init w p n (fun _ => none)
      = (add_tp_index (setLevel (spawnLoop p n (fun _ => none) w 0 (n - 1)).1 p n) p,
         Status.ok) := by
    simp only [init]
    rw [if_neg hn, s1]
    rfl
  have hslp : (setLevel (spawnLoop p n (fun _ => none) w 0 (n - 1)).1 p n).pools p
      = { (spawnLoop p n (fun _ => none) w 0 (n - 1)).1.pools p with
          concurrency_level := n } := by
    simp [setLevel]
  have hslq : ∀ q, q ≠ p →
      (setLevel (spawnLoop p n (fun _ => none) w 0 (n - 1)).1 p n).pools q
      = (spawnLoop p n (fun _ => none) w 0 (n - 1)).1.pools q := by
    intro q hq
    simp [setLevel, hq]
  have hadd : ∀ (v : World), (add_tp_index v p).pools = v.pools := fun v => rfl
  rw [hinit]
  refine ⟨rfl, ?_, ?_, ?_, ?_, ?_, ?_, ?_, ?_, ?_⟩
  · show ((setLevel (spawnLoop p n (fun _ => none) w 0 (n - 1)).1 p n).pools p).concurrency_level = n
    rw [hslp]
  · show ((setLevel (spawnLoop p n (fun _ => none) w 0 (n - 1)).1 p n).pools p).should_terminate
      = (w.pools p).should_terminate
    rw [hslp]
    exact s3
  · show ((setLevel (spawnLoop p n (fun _ => none) w 0 (n - 1)).1 p n).pools p).threads
      = (w.pools p).threads ++ List.range' w.next_tid (n - 1)
    rw [hslp]
    exact s2
  · show ((setLevel (spawnLoop p n (fun _ => none) w 0 (n - 1)).1 p n).pools p).task_stack
      = (w.pools p).task_stack
    rw [hslp]
    exact s5
  · intro q hq
    show ((setLevel (spawnLoop p n (fun _ => none) w 0 (n - 1)).1 p n).pools q) = w.pools q
    rw [hslq q hq]
    exact s6 q hq
  · funext tid
    show (if tid ∈ ((setLevel (spawnLoop p n (fun _ => none) w 0 (n - 1)).1 p n).pools p).threads
        then some p
        else (setLevel (spawnLoop p n (fun _ => none) w 0 (n - 1)).1 p n).reg tid) = _
    have hreg : (setLevel (spawnLoop p n (fun _ => none) w 0 (n - 1)).1 p n).reg
        = (spawnLoop p n (fun _ => none) w 0 (n - 1)).1.reg := rfl
    rw [hslp, hreg, s7]
    show (if tid ∈ ({ (spawnLoop p n (fun _ => none) w 0 (n - 1)).1.pools p with
          concurrency_level := n } : ThreadPool).threads then some p else w.reg tid) = _
    have hth : ({ (spawnLoop p n (fun _ => none) w 0 (n - 1)).1.pools p with
          concurrency_level := n } : ThreadPool).threads
        = (w.pools p).threads ++ List.range' w.next_tid (n - 1) := s2
    rw [hth]
  · exact s8
  · exact s9
  · exact s10

/-! ### Characterization of `submitN` -/

theorem execute_push_char (w : World) (p : Nat) (clo : Status)
    (hl : 1 < (w.pools p).concurrency_level)
    (hf : (w.pools p).should_terminate = false) :
    (execute w p clo).2 = w.next_handle ∧
    (∀ x, (execute w p clo).1.handles x
      = if x = w.next_handle then ⟨true, false, Status.ok⟩ else w.handles x) ∧
    (execute w p clo).1.pools p
      = { w.pools p with task_stack := ⟨true, w.next_handle, clo⟩ :: (w.pools p).task_stack } ∧
    (∀ q, q ≠ p → (execute w p clo).1.pools q = w.pools q) ∧
    (execute w p clo).1.reg = w.reg ∧
    (execute w p clo).1.next_handle = w.next_handle + 1 ∧
    (execute w p clo).1.next_tid = w.next_tid := by
  have h0 : ¬ ((w.pools p).concurrency_level = 0) := by omega
  have hfn : ¬ ((w.pools p).should_terminate = true) := by simp [hf]
  have hexec : execute w p clo
      = ({ { w with handles := updH w.handles w.next_handle ⟨true, false, Status.ok⟩,
                    next_handle := w.next_handle + 1 } with
            pools := fun q =>
              if q = p then
                { w.pools p with
                    task_stack := ⟨true, w.next_handle, clo⟩ :: (w.pools p).task_stack }
              else w.pools q },
         w.next_handle) := by
    simp only [execute]
    rw [if_neg h0, if_neg hfn, if_pos hl]
  rw [hexec]
  refine ⟨rfl, ?_, ?_, ?_, rfl, rfl, rfl⟩
  · intro x
    rfl
  · show (if p = p then { w.pools p with
        task_stack := ⟨true, w.next_handle, clo⟩ :: (w.pools p).task_stack }
      else w.pools p) = _
    rw [if_pos rfl]
  · intro q hq
    show (if q = p then _ else w.pools q) = w.pools q
    rw [if_neg hq]

theorem submitN_char (p : Nat) (f : Nat → Status) :
    ∀ (m i : Nat) (w : World),
    1 < (w.pools p).concurrency_level →
    (w.pools p).should_terminate = false →
    (submitN p f w i m).2 = List.range' w.next_handle m ∧
    (∀ x, x < w.next_handle → (submitN p f w i m).1.handles x = w.handles x) ∧
    (∀ j, j < m →
      (submitN p f w i m).1.handles (w.next_handle + j) = ⟨true, false, Status.ok⟩) ∧
    (∃ newts,
      ((submitN p f w i m).1.pools p).task_stack = newts ++ (w.pools p).task_stack ∧
      (∀ t ∈ newts, ∃ j, j < m ∧ t = (⟨true, w.next_handle + j, f (i + j)⟩ : PTask)) ∧
      (∀ j, j < m → (⟨true, w.next_handle + j, f (i + j)⟩ : PTask) ∈ newts)) ∧
    ((submitN p f w i m).1.pools p).concurrency_level = (w.pools p).concurrency_level ∧
    ((submitN p f w i m).1.pools p).should_terminate = false ∧
    ((submitN p f w i m).1.pools p).threads = (w.pools p).threads ∧
    (∀ q, q ≠ p → (submitN p f w i m).1.pools q = w.pools q) ∧
    (submitN p f w i m).1.reg = w.reg ∧
    (submitN p f w i m).1.next_handle = w.next_handle + m := by
  intro m
  induction m with
  | zero =>
    intro i w _ hf
    exact ⟨rfl, fun x _ => rfl, fun j hj => absurd hj (by omega),
      ⟨[], rfl, fun t ht => absurd ht (by simp), fun j hj => absurd hj (by omega)⟩,
      rfl, hf, rfl, fun q _ => rfl, rfl, rfl⟩
  | succ m ih =>
    intro i w hl hf
    obtain ⟨e1, e2, e3, e4, e5, e6, e7⟩ := execute_push_char w p (f i) hl hf
    have hl2 : 1 < ((execute w p (f i)).1.pools p).concurrency_level := by
      rw [e3]; exact hl
    have hf2 : ((execute w p (f i)).1.pools p).should_terminate = false := by
      rw [e3]; exact hf
    obtain ⟨ih1, ih2, ih3, ih4, ih5, ih6, ih7, ih8, ih9, ih10⟩ :=
      ih (i + 1) (execute w p (f i)).1 hl2 hf2
    have hstep : submitN p f w i (m + 1)
        = ((submitN p f (execute w p (f i)).1 (i + 1) m).1,
           (execute w p (f i)).2 :: (submitN p f (execute w p (f i)).1 (i + 1) m).2) := rfl
    rw [hstep]
    have hnh : (execute w p (f i)).1.next_handle = w.next_handle + 1 := e6
    refine ⟨?_, ?_, ?_, ?_, ?_, ih6, ?_, ?_, ?_, ?_⟩
    · show (execute w p (f i)).2 :: (submitN p f (execute w p (f i)).1 (i + 1) m).2
        = List.range' w.next_handle (m + 1)
      rw [e1, ih1, hnh]
      rfl
    · intro x hx
      rw [ih2 x (by omega)]
      rw [e2 x, if_neg (by omega)]
    · intro j hj
      cases j with
      | zero =>
        rw [show w.next_handle + 0 = w.next_handle from rfl]
        rw [ih2 w.next_handle (by omega), e2 w.next_handle, if_pos rfl]
      | succ j =>
        have hj2 : j < m := by omega
        have := ih3 j hj2
        rw [hnh] at this
        rw [show w.next_handle + (j + 1) = w.next_handle + 1 + j by omega]
        exact this
    · obtain ⟨newts, hns, hmem1, hmem2⟩ := ih4
      refine ⟨newts ++ [⟨true, w.next_handle, f i⟩], ?_, ?_, ?_⟩
      · rw [hns, e3]
        show newts ++ (⟨true, w.next_handle, f i⟩ :: (w.pools p).task_stack)
          = newts ++ [⟨true, w.next_handle, f i⟩] ++ (w.pools p).task_stack
        rw [List.append_assoc]
        rfl
      · intro t ht
        rcases List.mem_append.mp ht with hin | hin
        · obtain ⟨j, hj, hteq⟩ := hmem1 t hin
          rw [hnh] at hteq
          refine ⟨j + 1, by omega, ?_⟩
          rw [hteq]
          have hx : w.next_handle + 1 + j = w.next_handle + (j + 1) := by omega
          have hy : i + 1 + j = i + (j + 1) := by omega
          rw [hx, hy]
        · have hteq : t = (⟨true, w.next_handle, f i⟩ : PTask) := by simpa using hin
          refine ⟨0, by omega, ?_⟩
          rw [hteq]
          rfl
      · intro j hj
        cases j with
        | zero =>
          apply List.mem_append.mpr
          right
          simp
        | succ j =>
          apply List.mem_append.mpr
          left
          have := hmem2 j (by omega)
          rw [hnh] at this
          have hx : w.next_handle + 1 + j = w.next_handle + (j + 1) := by omega
          have hy : i + 1 + j = i + (j + 1) := by omega
          rw [hx, hy] at this
          exact this
    · rw [ih5, e3]
    · rw [ih7, e3]
    · intro q hq
      rw [ih8 q hq, e4 q hq]
    · rw [ih9, e5]
    · rw [ih10, hnh]
      omega

theorem lookup_tp_some (reg : Nat → Option Nat) (tid selfp q : Nat) (h : reg tid = some q) :
    lookup_tp reg tid selfp = q := by
  unfold lookup_tp
  rw [h]

theorem lookup_tp_none (reg : Nat → Option Nat) (tid selfp : Nat) (h : reg tid = none) :
    lookup_tp reg tid selfp = selfp := by
  unfold lookup_tp
  rw [h]

/-! ### Auxiliary lemmas for `wait_all` -/

theorem seqOpt_map (l : List Status) : seqOpt (l.map some) = some l := by
  induction l with
  | nil => rfl
  | cons s rest ih => simp [seqOpt, ih]

theorem firstNonOk_spec (l : List Status) :
    (firstNonOk l = Status.ok ∧ ∀ s ∈ l, s.isOk = true) ∨
    (∃ l1 l2, l = l1 ++ firstNonOk l :: l2 ∧ (∀ s ∈ l1, s.isOk = true) ∧
      (firstNonOk l).isOk = false) := by
  induction l with
  | nil => left; exact ⟨rfl, by simp⟩
  | cons s rest ih =>
    by_cases h : s.isOk = true
    · have hfs : firstNonOk (s :: rest) = firstNonOk rest := by simp [firstNonOk, h]
      rcases ih with ⟨h1, h2⟩ | ⟨l1, l2, he, hpre, hbad⟩
      · left
        refine ⟨by rw [hfs]; exact h1, ?_⟩
        intro x hx
        rcases List.mem_cons.mp hx with rfl | hx
        · exact h
        · exact h2 x hx
      · right
        refine ⟨s :: l1, l2, ?_, ?_, ?_⟩
        · rw [hfs, List.cons_append, ← he]
        · intro x hx
          rcases List.mem_cons.mp hx with rfl | hx
          · exact h
          · exact hpre x hx
        · rw [hfs]; exact hbad
    · have hfs : firstNonOk (s :: rest) = s := by simp [firstNonOk, h]
      right
      refine ⟨[], rest, ?_, by simp, ?_⟩
      · rw [hfs]; rfl
      · rw [hfs]; exact Bool.eq_false_iff.mpr h

/-! ### Claim C1 -/

def cw1 : World :=
  { pools := fun q =>
      if q = 0 then ⟨2, false, [100], [⟨true, 5, Status.ok⟩]⟩
      else if q = 1 then ⟨2, false, [200], [⟨true, 6, Status.ok⟩]⟩
      else emptyPool,
    reg := fun t => if t = 200 then some 1 else if t = 100 then some 0 else none,
    handles := fun h =>
      if h = 5 ∨ h = 6 ∨ h = 7 then ⟨true, false, Status.ok⟩
      else ⟨false, false, Status.ok⟩,
    next_handle := 8,
    next_tid := 300 }

/-- Claim C1. `wait_or_work`, called on pool object `B`, resolves the host
pool `A` through the registry: `A` is the registry entry of the current
thread when it is registered, and `A = B` (the pool being operated on)
when it is not. It pops and executes tasks from the top of `A`'s stack
only (a prefix of `A`'s stack is executed, all other pools are untouched —
in particular a registered worker of pool `A` waiting through pool `B ≠ A`
drains `A`'s stack, not `B`'s), and it reaches the blocking `task.wait()`
with the future still pending only after observing `A`'s stack empty; when
it returns a status the future is done. -/
theorem c1_wait_or_work_host_drain (w : World) (tid A B hid : Nat)
    (hreg : w.reg tid = some A ∨ (w.reg tid = none ∧ A = B)) :
    lookup_tp w.reg tid B = A ∧
    (∃ k, k ≤ ((w.pools A).task_stack).length ∧
      (wait_or_work w tid B hid).1.handles
        = execAll w.handles (((w.pools A).task_stack).take k) ∧
      ((wait_or_work w tid B hid).1.pools A).task_stack
        = ((w.pools A).task_stack).drop k) ∧
    (∀ q, q ≠ A → (wait_or_work w tid B hid).1.pools q = w.pools q) ∧
    ((wait_or_work w tid B hid).2 = none →
      ((wait_or_work w tid B hid).1.handles hid).done = false ∧
      ((wait_or_work w tid B hid).1.pools A).task_stack = []) ∧
    ((wait_or_work w tid B hid).2 ≠ none →
      ((wait_or_work w tid B hid).1.handles hid).done = true) := by
  have hlook : lookup_tp w.reg tid B = A := by
    rcases hreg with h | ⟨h, rfl⟩
    · exact lookup_tp_some _ tid B A h
    · exact lookup_tp_none _ tid A h
  obtain ⟨k, hk, hH, hS, _, _, _, hO, _, _, _, hNone, hSome⟩ := wait_or_work_char w tid B hid
  rw [hlook] at hk hH hS hO hNone
  exact ⟨hlook, ⟨k, hk, hH, hS⟩, hO, hNone, fun h => (hSome h).1⟩

theorem c1_witness :
    (lookup_tp cw1.reg 200 0 = 1 ∧ (wait_or_work cw1 200 0 7).1.pools 0 = cw1.pools 0) ∧
    (lookup_tp cw1.reg 999 0 = 0 ∧
      ((wait_or_work cw1 999 0 7).1.pools 0).task_stack = []) := by
  have h1 := c1_wait_or_work_host_drain cw1 200 1 0 7 (Or.inl rfl)
  have h2 := c1_wait_or_work_host_drain cw1 999 0 0 7 (Or.inr ⟨rfl, rfl⟩)
  exact ⟨⟨h1.1, h1.2.2.1 0 (by decide)⟩, ⟨h2.1, (h2.2.2.2.1 (by decide)).2⟩⟩

/-! ### Claim C2 -/

/-- Claim C2. With concurrency `n ≥ 2`, a parent that submits `m` children
(with pure bodies `f 0 .. f (m-1)`) to its pool and then calls `wait_all`
on the returned futures always completes: no wait blocks, every child
runs, and the parent observes the first non-Ok child status (or Ok). -/
theorem c2_recursive_submission_completes (n m tid : Nat) (f : Nat → Status) (hn : 2 ≤ n) :
    (wait_all (submitN 0 f (init pristine 0 n (fun _ => none)).1 0 m).1 tid 0
        (submitN 0 f (init pristine 0 n (fun _ => none)).1 0 m).2).2
      = some (firstNonOk ((List.range m).map f)) := by
  have hn0 : ¬ (n = 0) := by omega
  obtain ⟨i1, i2, i3, i4, i5, i6, i7, i8, i9, i10⟩ := init_ok_char pristine 0 n hn0
  have hl : 1 < ((init pristine 0 n (fun _ => none)).1.pools 0).concurrency_level := by
    rw [i2]; omega
  have hf : ((init pristine 0 n (fun _ => none)).1.pools 0).should_terminate = false := by
    rw [i3]; rfl
  obtain ⟨s1, s2, s3, s4, s5, s6, s7, s8, s9, s10⟩ :=
    submitN_char 0 f m 0 (init pristine 0 n (fun _ => none)).1 hl hf
  have hnh0 : (init pristine 0 n (fun _ => none)).1.next_handle = 0 := i9
  rw [hnh0] at s1 s3 s4
  obtain ⟨newts, hns, hmem1, hmem2⟩ := s4
  have hstk0 : ((init pristine 0 n (fun _ => none)).1.pools 0).task_stack = [] := i5
  rw [hstk0, List.append_nil] at hns
  -- host resolution: every thread helps pool 0
  have hhost : lookup_tp (submitN 0 f (init pristine 0 n (fun _ => none)).1 0 m).1.reg tid 0
      = 0 := by
    rw [s9, i7]
    by_cases hmem : tid ∈ (pristine.pools 0).threads ++ List.range' pristine.next_tid (n - 1)
    · exact lookup_tp_some _ tid 0 0 (by simp [hmem])
    · exact lookup_tp_none _ tid 0 (by simpa [pristine] using hmem)
  -- readiness of every child future
  have hrdy : ∀ hid ∈ (submitN 0 f (init pristine 0 n (fun _ => none)).1 0 m).2,
      ((submitN 0 f (init pristine 0 n (fun _ => none)).1 0 m).1.handles hid).valid = false ∨
      (((submitN 0 f (init pristine 0 n (fun _ => none)).1 0 m).1.handles hid).valid = true ∧
        hReady (submitN 0 f (init pristine 0 n (fun _ => none)).1 0 m).1 0 f hid) := by
    intro hid hm
    rw [s1] at hm
    have hj : hid < m := by
      have := List.mem_range'_1.mp hm
      omega
    have hh : (submitN 0 f (init pristine 0 n (fun _ => none)).1 0 m).1.handles hid
        = ⟨true, false, Status.ok⟩ := by
      have := s3 hid hj
      rwa [Nat.zero_add] at this
    right
    refine ⟨by rw [hh], Or.inr ⟨by rw [hh], ?_⟩⟩
    have := hmem2 hid hj
    rw [Nat.zero_add] at this
    rw [hns]
    exact this
  -- the stack carries exactly the child payloads
  have hstk : stackOk (submitN 0 f (init pristine 0 n (fun _ => none)).1 0 m).1 0 f
      (submitN 0 f (init pristine 0 n (fun _ => none)).1 0 m).2 := by
    intro t ht hmem
    rw [hns] at ht
    obtain ⟨j, hj, hteq⟩ := hmem1 t ht
    rw [Nat.zero_add] at hteq
    rw [hteq]
    exact ⟨rfl, rfl⟩
  have hspec := wait_all_status_spec tid 0 f
    (submitN 0 f (init pristine 0 n (fun _ => none)).1 0 m).2
    (submitN 0 f (init pristine 0 n (fun _ => none)).1 0 m).1 hhost hrdy hstk
  -- every listed future is valid, so the statuses are exactly the child results
  have hvalid : ∀ hid ∈ (submitN 0 f (init pristine 0 n (fun _ => none)).1 0 m).2,
      ((submitN 0 f (init pristine 0 n (fun _ => none)).1 0 m).1.handles hid).valid = true := by
    intro hid hm
    rcases hrdy hid hm with hv | ⟨hv, _⟩
    · rw [s1] at hm
      have hj : hid < m := by
        have := List.mem_range'_1.mp hm
        omega
      have hh := s3 hid hj
      rw [Nat.zero_add] at hh
      rw [hh] at hv
      exact absurd hv (by simp)
    · exact hv
  have hmap : ((submitN 0 f (init pristine 0 n (fun _ => none)).1 0 m).2).map
        (fun hid => if ((submitN 0 f (init pristine 0 n (fun _ => none)).1 0 m).1.handles hid).valid = true
          then some (f hid) else some (Status.error "Invalid task future"))
      = ((submitN 0 f (init pristine 0 n (fun _ => none)).1 0 m).2).map
        (fun hid => some (f hid)) := by
    apply List.map_congr_left
    intro hid hm
    rw [if_pos (hvalid hid hm)]
  rw [hmap] at hspec
  have hmm : ((submitN 0 f (init pristine 0 n (fun _ => none)).1 0 m).2).map
        (fun hid => some (f hid))
      = (((submitN 0 f (init pristine 0 n (fun _ => none)).1 0 m).2).map f).map some := by
    rw [List.map_map]
    rfl
  have hfuts : (submitN 0 f (init pristine 0 n (fun _ => none)).1 0 m).2 = List.range m := by
    rw [s1, ← List.range_eq_range']
  simp only [wait_all]
  rw [hspec, hmm, seqOpt_map, hfuts]

theorem c2_witness :
    (wait_all (submitN 0 (fun _ => Status.ok) (init pristine 0 2 (fun _ => none)).1 0 3).1 9 0
        (submitN 0 (fun _ => Status.ok) (init pristine 0 2 (fun _ => none)).1 0 3).2).2
      = some (firstNonOk ((List.range 3).map (fun _ => Status.ok))) :=
  c2_recursive_submission_completes 2 3 9 (fun _ => Status.ok) (by decide)

/-! ### Claim C3 -/

def cw3 : World :=
  { pools := fun q =>
      if q = 0 then ⟨2, false, [100], [⟨true, 1, Status.ok⟩, ⟨true, 0, Status.ok⟩]⟩
      else emptyPool,
    reg := fun t => if t = 100 then some 0 else none,
    handles := fun h =>
      if h ≤ 1 then ⟨true, false, Status.ok⟩ else ⟨false, false, Status.ok⟩,
    next_handle := 2,
    next_tid := 101 }

/-- Claim C3 counterexample. In `cw3`, pool 0 (concurrency 2, one worker)
holds two pushed work units; the unit fulfilling future 0 was pushed
before `terminate`, yet after `terminate` returns it is still on the stack
and its future is not done: `terminate` abandoned already-scheduled
work. -/
theorem c3_counterexample :
    (⟨true, 0, Status.ok⟩ : PTask) ∈ (cw3.pools 0).task_stack ∧
    ((terminate cw3 0).handles 0).done = false ∧
    (⟨true, 0, Status.ok⟩ : PTask) ∈ ((terminate cw3 0).pools 0).task_stack ∧
    ((terminate cw3 0).pools 0).threads = [] := by
  decide

/-- Claim C3 amended. `terminate` does not drain the stack: once the
terminate flag is set, each of the `threads_.length` joined workers pops
and runs at most one task and then exits even if the stack is non-empty.
After `terminate` returns, exactly the top `threads_.length` tasks have
been executed, the remaining tasks are left on the stack unexecuted (the
future of any task outside that prefix is untouched), the worker list is
empty and the flag is set. -/
theorem c3_terminate_amended (w : World) (p : Nat) :
    ((terminate w p).pools p).task_stack
      = (w.pools p).task_stack.drop ((w.pools p).threads).length ∧
    (terminate w p).handles
      = execAll w.handles ((w.pools p).task_stack.take ((w.pools p).threads).length) ∧
    ((terminate w p).pools p).threads = [] ∧
    ((terminate w p).pools p).should_terminate = true ∧
    (∀ hid, (∀ t ∈ (w.pools p).task_stack.take ((w.pools p).threads).length, t.h ≠ hid) →
      (terminate w p).handles hid = w.handles hid) := by
  obtain ⟨t1, t2, t3, t4, t5, t6, t7, t8, t9⟩ := terminate_char w p
  refine ⟨t4, t5, t3, t2, ?_⟩
  intro hid hne
  rw [t5]
  exact execAll_untouched _ _ _ hne

theorem c3_amended_witness :
    (terminate cw3 0).handles 5 = cw3.handles 5 :=
  (c3_terminate_amended cw3 0).2.2.2.2 5 (by decide)

/-! ### Claim C4 -/

def c4fail : Nat → Option String := fun _ => some "boom"

def c4w1 : World := (init pristine 0 2 c4fail).1

def c4w2 : World := (init c4w1 0 2 (fun _ => none)).1

/-- Claim C4 counterexample. A failing `init(2)` on a fresh pool leaves
`should_terminate_` set (a fresh pool has it unset), so the pool is not in
its pre-`init` state: a later `init(2)` returns Ok, yet a subsequent
submission returns an invalid handle, while on a pool whose first `init(2)`
succeeded the same submission returns a valid handle. -/
theorem c4_counterexample :
    (c4w1.pools 0).should_terminate = true ∧
    (pristine.pools 0).should_terminate = false ∧
    (init c4w1 0 2 (fun _ => none)).2 = Status.ok ∧
    ((execute c4w2 0 Status.ok).1.handles (execute c4w2 0 Status.ok).2).valid = false ∧
    ((execute (init pristine 0 2 (fun _ => none)).1 0 Status.ok).1.handles
      (execute (init pristine 0 2 (fun _ => none)).1 0 Status.ok).2).valid = true := by
  decide

theorem execute_dead_char (w : World) (p : Nat) (clo : Status)
    (h : (w.pools p).concurrency_level = 0 ∨ (w.pools p).should_terminate = true) :
    ((execute w p clo).1.handles (execute w p clo).2).valid = false ∧
    (execute w p clo).1.pools = w.pools ∧
    ((execute w p clo).1.handles (execute w p clo).2).done = false := by
  by_cases h0 : (w.pools p).concurrency_level = 0
  · have hexec : execute w p clo
        = ({ w with handles := updH w.handles w.next_handle ⟨false, false, Status.ok⟩,
                    next_handle := w.next_handle + 1 }, w.next_handle) := by
      simp only [execute]
      rw [if_pos h0]
    rw [hexec]
    exact ⟨by simp [updH], rfl, by simp [updH]⟩
  · have hft : (w.pools p).should_terminate = true := h.resolve_left h0
    have hexec : execute w p clo
        = ({ w with handles := updH w.handles w.next_handle ⟨false, false, Status.ok⟩,
                    next_handle := w.next_handle + 1 }, w.next_handle) := by
      simp only [execute]
      rw [if_neg h0, if_pos hft]
    rw [hexec]
    exact ⟨by simp [updH], rfl, by simp [updH]⟩

/-- Claim C4 amended. When a spawn fails during `init(n)` on a pre-`init`
pool (first failure at index `k` with message `msg`), all previously
spawned workers are joined (worker list empty again), the first failure's
message is returned wrapped in the init error, the level stays 0 and the
handles are untouched — but the pool is NOT left observationally in its
pre-`init` state: `terminate()` ran during cleanup and left
`should_terminate_` set, so although a later `init(m)` returns Ok, every
subsequent submission returns an invalid handle. -/
theorem c4_init_failure_amended (w : World) (p n k m : Nat) (msg : String) (clo : Status)
    (fail : Nat → Option String)
    (hpool : w.pools p = emptyPool)
    (hpre : ∀ j, j < k → fail j = none) (hk : fail k = some msg) (hkn : k < n - 1)
    (hm : ¬ (m = 0)) :
    (init w p n fail).2
      = Status.error ("Error initializing thread pool of concurrencylevel "
          ++ toString n ++ "; " ++ msg) ∧
    ((init w p n fail).1.pools p).concurrency_level = 0 ∧
    ((init w p n fail).1.pools p).threads = [] ∧
    ((init w p n fail).1.pools p).task_stack = [] ∧
    (init w p n fail).1.handles = w.handles ∧
    ((init w p n fail).1.pools p).should_terminate = true ∧
    (init (init w p n fail).1 p m (fun _ => none)).2 = Status.ok ∧
    ((execute (init (init w p n fail).1 p m (fun _ => none)).1 p clo).1.handles
       (execute (init (init w p n fail).1 p m (fun _ => none)).1 p clo).2).valid = false := by
  have hn0 : ¬ (n = 0) := by omega
  obtain ⟨f1, f2, f3, f4, f5, f6, f7, f8, f9⟩ :=
    spawnLoop_fail_char p n fail msg k (n - 1) 0 w (by simpa using hpre) (by simpa using hk) hkn
  have hnotok : ¬ ((spawnLoop p n fail w 0 (n - 1)).2.isOk = true) := by
    rw [f1]
    simp [Status.isOk]
  have hinit : init w p n fail
      = (terminate (spawnLoop p n fail w 0 (n - 1)).1 p, (spawnLoop p n fail w 0 (n - 1)).2) := by
    simp only [init]
    rw [if_neg hn0, if_neg hnotok]
  obtain ⟨t1, t2, t3, t4, t5, t6, t7, t8, t9⟩ :=
    terminate_char (spawnLoop p n fail w 0 (n - 1)).1 p
  have hstk : (((spawnLoop p n fail w 0 (n - 1)).1).pools p).task_stack = [] := by
    rw [f5, hpool]
    rfl
  have hlvl : (((spawnLoop p n fail w 0 (n - 1)).1).pools p).concurrency_level = 0 := by
    rw [f4, hpool]
    rfl
  have hc1 : (init w p n fail).2
      = Status.error ("Error initializing thread pool of concurrencylevel "
          ++ toString n ++ "; " ++ msg) := by
    rw [hinit]
    exact f1
  have hc2 : ((init w p n fail).1.pools p).concurrency_level = 0 := by
    rw [hinit]
    show ((terminate (spawnLoop p n fail w 0 (n - 1)).1 p).pools p).concurrency_level = 0
    rw [t1, hlvl]
  have hc3 : ((init w p n fail).1.pools p).threads = [] := by
    rw [hinit]
    exact t3
  have hc4 : ((init w p n fail).1.pools p).task_stack = [] := by
    rw [hinit]
    show ((terminate (spawnLoop p n fail w 0 (n - 1)).1 p).pools p).task_stack = []
    rw [t4, hstk]
    simp
  have hc5 : (init w p n fail).1.handles = w.handles := by
    rw [hinit]
    show (terminate (spawnLoop p n fail w 0 (n - 1)).1 p).handles = w.handles
    rw [t5, hstk]
    simp only [List.take_nil]
    exact f8
  have hc6 : ((init w p n fail).1.pools p).should_terminate = true := by
    rw [hinit]
    exact t2
  obtain ⟨r1, r2, r3, r4, r5, r6, r7, r8, r9, r10⟩ := init_ok_char (init w p n fail).1 p m hm
  have hreflag : ((init (init w p n fail).1 p m (fun _ => none)).1.pools p).should_terminate
      = true := by
    rw [r3, hc6]
  refine ⟨hc1, hc2, hc3, hc4, hc5, hc6, r1, ?_⟩
  exact (execute_dead_char (init (init w p n fail).1 p m (fun _ => none)).1 p clo
    (Or.inr hreflag)).1

theorem c4_amended_witness :
    (init pristine 0 2 c4fail).2
      = Status.error ("Error initializing thread pool of concurrencylevel "
          ++ toString 2 ++ "; " ++ "boom") :=
  (c4_init_failure_amended pristine 0 2 0 2 "boom" Status.ok c4fail rfl
    (fun j hj => absurd hj (by omega)) rfl (by decide) (by decide)).1

/-! ### Claim C5 -/

def cw5 : World :=
  { pools := fun _ => emptyPool,
    reg := fun _ => none,
    handles := fun h =>
      if h = 0 then ⟨true, true, Status.error "boom"⟩
      else if h = 1 then ⟨true, true, Status.ok⟩
      else ⟨false, false, Status.ok⟩,
    next_handle := 2,
    next_tid := 0 }

/-- Claim C5. `wait_all` computes `wait_all_status` over the whole handle
list first — every handle is waited on, the final world is exactly the one
after draining all of them, and the returned list has one status per
handle — and then returns the first non-Ok status in input order (all
statuses before it are Ok), or Ok when every status is Ok. Stated for any
run in which no wait blocks (each per-handle wait returned a status). -/
theorem c5_wait_all_first_error (w : World) (tid p : Nat) (futs : List Nat)
    (sts : List Status)
    (hsts : (wait_all_status tid p w futs).2 = sts.map some) :
    (wait_all w tid p futs).2 = some (firstNonOk sts) ∧
    (wait_all w tid p futs).1 = (wait_all_status tid p w futs).1 ∧
    sts.length = futs.length ∧
    ((firstNonOk sts = Status.ok ∧ ∀ s ∈ sts, s.isOk = true) ∨
      (∃ l1 l2, sts = l1 ++ firstNonOk sts :: l2 ∧ (∀ s ∈ l1, s.isOk = true) ∧
        (firstNonOk sts).isOk = false)) := by
  have hlen := wait_all_status_length tid p futs w
  rw [hsts] at hlen
  simp only [List.length_map] at hlen
  refine ⟨?_, ?_, hlen, firstNonOk_spec sts⟩
  · simp only [wait_all]
    rw [hsts, seqOpt_map]
  · simp only [wait_all]
    rw [hsts, seqOpt_map]

theorem c5_witness :
    (wait_all cw5 0 0 [0, 1]).2
      = some (firstNonOk [Status.error "boom", Status.ok]) :=
  (c5_wait_all_first_error cw5 0 0 [0, 1] [Status.error "boom", Status.ok] (by decide)).1

/-! ### Claim C6 -/

def cw6 : World :=
  { pools := fun _ => emptyPool,
    reg := fun _ => none,
    handles := fun _ => ⟨false, false, Status.ok⟩,
    next_handle := 1,
    next_tid := 0 }

/-- Claim C6 counterexample. For an invalid handle, `wait_all_status`
synthesizes `ThreadPoolError("Invalid task future")` (capital I, from
line 150 of the source), not `Error("invalid task future")` as the claim
quotes it. -/
theorem c6_counterexample :
    (wait_all_status 0 0 cw6 [0]).2 = [some (Status.error "Invalid task future")] ∧
    (wait_all_status 0 0 cw6 [0]).2 ≠ [some (Status.error "invalid task future")] := by
  decide

def cw6b : World :=
  { pools := fun _ => emptyPool,
    reg := fun _ => none,
    handles := fun h =>
      if h = 0 then ⟨true, true, Status.error "boom"⟩
      else ⟨false, false, Status.ok⟩,
    next_handle := 2,
    next_tid := 0 }

/-- Claim C6 amended. `wait_all_status` returns exactly one status per
handle, in input order: for each valid handle the result its closure
produced (the handle being either already completed with that result or
completed by draining its task from the host stack during the wait — no
wait blocks under these premises), and for each invalid handle the
synthetic error whose message is "Invalid task future" (not the
lower-case "invalid task future" the claim quotes), on which it never
waits. -/
theorem c6_wait_all_status_amended (w : World) (tid p : Nat) (futs : List Nat)
    (res : Nat → Status)
    (hhost : lookup_tp w.reg tid p = p)
    (hrdy : ∀ hid ∈ futs, (w.handles hid).valid = false ∨
        ((w.handles hid).valid = true ∧ hReady w p res hid))
    (hstk : stackOk w p res futs) :
    (wait_all_status tid p w futs).2
      = futs.map (fun hid => if (w.handles hid).valid = true then some (res hid)
          else some (Status.error "Invalid task future")) ∧
    ((wait_all_status tid p w futs).2).length = futs.length :=
  ⟨wait_all_status_spec tid p res futs w hhost hrdy hstk,
   wait_all_status_length tid p futs w⟩

theorem c6_witness :
    (wait_all_status 0 0 cw6b [0, 1]).2
      = [some (Status.error "boom"), some (Status.error "Invalid task future")] := by
  have h := (c6_wait_all_status_amended cw6b 0 0 [0, 1] (fun _ => Status.error "boom")
    rfl
    (by
      intro hid hm
      have hm2 : hid = 0 ∨ hid = 1 := by simpa using hm
      rcases hm2 with rfl | rfl
      · right
        exact ⟨rfl, Or.inl ⟨rfl, rfl⟩⟩
      · left
        rfl)
    (by
      intro t ht hmem
      exact absurd ht (List.not_mem_nil t))).1
  rw [h]
  rfl

/-! ### Claim C7 -/

def cw7 : World := (init pristine 0 1 (fun _ => none)).1

/-- Claim C7. On a live pool with concurrency level 1, `execute` runs the
closure synchronously on the caller: the returned future is already valid,
done and holds the closure's status when `execute` returns, and no pool is
modified — in particular nothing is pushed onto the task stack. -/
theorem c7_concurrency_one_sync (w : World) (p : Nat) (clo : Status)
    (hl : (w.pools p).concurrency_level = 1)
    (hf : (w.pools p).should_terminate = false) :
    (execute w p clo).2 = w.next_handle ∧
    ((execute w p clo).1.handles (execute w p clo).2)
      = ⟨true, true, clo⟩ ∧
    (execute w p clo).1.pools = w.pools := by
  have h0 : ¬ ((w.pools p).concurrency_level = 0) := by omega
  have hfn : ¬ ((w.pools p).should_terminate = true) := by simp [hf]
  have hgt : ¬ ((w.pools p).concurrency_level > 1) := by omega
  have hexec : execute w p clo
      = ({ { w with handles := updH w.handles w.next_handle ⟨true, false, Status.ok⟩,
                    next_handle := w.next_handle + 1 } with
            handles := updH (updH w.handles w.next_handle ⟨true, false, Status.ok⟩)
              w.next_handle ⟨true, true, clo⟩ },
         w.next_handle) := by
    simp only [execute]
    rw [if_neg h0, if_neg hfn, if_neg hgt]
  rw [hexec]
  refine ⟨rfl, ?_, rfl⟩
  simp [updH]

theorem c7_witness :
    ((execute cw7 0 (Status.error "x")).1.handles (execute cw7 0 (Status.error "x")).2)
      = ⟨true, true, Status.error "x"⟩ :=
  (c7_concurrency_one_sync cw7 0 (Status.error "x") (by decide) (by decide)).2.1

/-! ### Claim C8 -/

def cw8 : World := terminate (init pristine 0 2 (fun _ => none)).1 0

/-- Claim C8 counterexample. Submitting to a terminated pool returns an
invalid handle, and the subsequent wait synthesizes the error message
"Invalid task future" (capital I, line 150 of the source), not
`Error("invalid task future")` as the claim quotes it. -/
theorem c8_counterexample :
    ((execute cw8 0 Status.ok).1.handles (execute cw8 0 Status.ok).2).valid = false ∧
    (wait_all_status 9 0 (execute cw8 0 Status.ok).1 [(execute cw8 0 Status.ok).2]).2
      = [some (Status.error "Invalid task future")] ∧
    (wait_all_status 9 0 (execute cw8 0 Status.ok).1 [(execute cw8 0 Status.ok).2]).2
      ≠ [some (Status.error "invalid task future")] := by
  decide

/-- Claim C8 amended. Submitting any closure to a pool that is
uninitialized (concurrency 0) or terminated returns — without any
exceptional control flow in the source, which logs and returns a
default-constructed future — a handle with `is_valid() == false`; a
subsequent wait on it returns the synthetic error whose message is
"Invalid task future" (not the lower-case "invalid task future" the claim
quotes) immediately, without ever calling `wait_or_work`, hence without
blocking. -/
theorem c8_dead_pool_submit (w : World) (p tid : Nat) (clo : Status)
    (h : (w.pools p).concurrency_level = 0 ∨ (w.pools p).should_terminate = true) :
    ((execute w p clo).1.handles (execute w p clo).2).valid = false ∧
    (wait_all_status tid p (execute w p clo).1 [(execute w p clo).2]).2
      = [some (Status.error "Invalid task future")] := by
  obtain ⟨hv, hpools, hd⟩ := execute_dead_char w p clo h
  refine ⟨hv, ?_⟩
  have hvf : ¬ (((execute w p clo).1.handles (execute w p clo).2).valid = true) := by
    simp [hv]
  simp only [wait_all_status]
  rw [if_neg hvf]

theorem c8_witness :
    ((execute cw8 0 (Status.error "y")).1.handles (execute cw8 0 (Status.error "y")).2).valid
      = false :=
  (c8_dead_pool_submit cw8 0 3 (Status.error "y") (by decide)).1

/-! ### Claim C9 -/

def cw9 : World :=
  { pools := fun q =>
      if q = 0 then ⟨3, false, [50, 51], [⟨true, 0, Status.error "late"⟩]⟩
      else emptyPool,
    reg := fun t => if t = 50 ∨ t = 51 then some 0 else none,
    handles := fun h =>
      if h = 0 then ⟨true, false, Status.ok⟩ else ⟨false, false, Status.ok⟩,
    next_handle := 1,
    next_tid := 52 }

/-- Claim C9. `terminate` is idempotent and always succeeds: a second call
finds the flag already set and the worker list already empty, removes
nothing from the registry, joins nothing, and leaves the whole process
state exactly as after the first call; after one call the flag is set, the
worker list is empty, and (when the registry maps to this pool only
through its workers, as `init` maintains) no registry entry for this pool
remains. -/
theorem c9_terminate_idempotent (w : World) (p : Nat)
    (hreg : ∀ tid, w.reg tid = some p → tid ∈ (w.pools p).threads) :
    terminate (terminate w p) p = terminate w p ∧
    ((terminate w p).pools p).should_terminate = true ∧
    ((terminate w p).pools p).threads = [] ∧
    (∀ tid, (terminate w p).reg tid ≠ some p) := by
  obtain ⟨t1, t2, t3, t4, t5, t6, t7, t8, t9⟩ := terminate_char w p
  refine ⟨terminate_stable (terminate w p) p t2 t3, t2, t3, ?_⟩
  intro tid
  rw [t7]
  by_cases hmem : tid ∈ (w.pools p).threads
  · simp [hmem]
  · simp only [if_neg hmem]
    intro hc
    exact hmem (hreg tid hc)

theorem c9_witness : terminate (terminate cw9 0) 0 = terminate cw9 0 :=
  (c9_terminate_idempotent cw9 0
    (by
      intro tid h
      by_cases ht : tid = 50 ∨ tid = 51
      · simpa [cw9] using ht
      · exfalso
        simp [cw9, ht] at h)).1

/-! ### Claim C10 -/

/-- Claim C10. Calling `init(m)` (with every spawn succeeding) on a pool
already holding `n - 1` workers from a successful `init(n)` succeeds:
it spawns `m - 1` additional workers appended after the existing ones
(which are neither joined nor unregistered — each stays registered to the
pool — nor terminated: the flag is untouched), leaves the stack alone, and
overwrites the stored level so `concurrency_level()` returns `m`. -/
theorem c10_reinit (w : World) (p n m : Nat)
    (hn : (w.pools p).concurrency_level = n) (hn1 : 1 ≤ n)
    (hlen : ((w.pools p).threads).length = n - 1)
    (hm : 1 ≤ m) :
    (init w p m (fun _ => none)).2 = Status.ok ∧
    concurrency_level (init w p m (fun _ => none)).1 p = m ∧
    ((init w p m (fun _ => none)).1.pools p).threads
      = (w.pools p).threads ++ List.range' w.next_tid (m - 1) ∧
    (((init w p m (fun _ => none)).1.pools p).threads).length = (n - 1) + (m - 1) ∧
    ((init w p m (fun _ => none)).1.pools p).should_terminate
      = (w.pools p).should_terminate ∧
    (∀ tid ∈ (w.pools p).threads, (init w p m (fun _ => none)).1.reg tid = some p) ∧
    ((init w p m (fun _ => none)).1.pools p).task_stack = (w.pools p).task_stack := by
  have hm0 : ¬ (m = 0) := by omega
  obtain ⟨i1, i2, i3, i4, i5, i6, i7, i8, i9, i10⟩ := init_ok_char w p m hm0
  refine ⟨i1, i2, i4, ?_, i3, ?_, i5⟩
  · rw [i4, List.length_append, hlen]
    simp
  · intro tid htid
    rw [i7]
    show (if tid ∈ (w.pools p).threads ++ List.range' w.next_tid (m - 1)
        then some p else w.reg tid) = some p
    rw [if_pos (List.mem_append.mpr (Or.inl htid))]

theorem c10_witness :
    (init (init pristine 0 2 (fun _ => none)).1 0 3 (fun _ => none)).2 = Status.ok ∧
    concurrency_level (init (init pristine 0 2 (fun _ => none)).1 0 3 (fun _ => none)).1 0
      = 3 ∧
    (((init (init pristine 0 2 (fun _ => none)).1 0 3 (fun _ => none)).1.pools 0).threads).length
      = (2 - 1) + (3 - 1) := by
  have h := c10_reinit (init pristine 0 2 (fun _ => none)).1 0 2 3
    (by decide) (by decide) (by decide) (by decide)
  exact ⟨h.1, h.2.1, h.2.2.2.1⟩

end TPool
